import Mathlib

/-!
Verification development for the kysely-cursor keyset pagination engine.

The TypeScript sources are shallowly embedded into Lean:

* `src/sorting.ts`   → `Dir`, `SortItem`, `applyDefaultDirection`.
* `src/cursor.ts`    → `getSortOutput`, `sortSignature`, `resolveCursor`,
  `decodeCursor`, `resolvePageTokens`, `buildCursorPredicateRecursive`,
  `baseApplyCursor`.
* `src/paginator.ts` → `assertLimitSorts`, `invertSorts`, `paginate`.

Modelling conventions:

* SQL values are `Option Int` (`none` = SQL NULL).  A selected row is an
  association list from output keys / column references to values.
* JavaScript numbers that flow through unvalidated (the `limit` argument and
  the `offset` cursor field) are modelled as `ℚ` so that the
  `Number.isInteger` check and non-integer inputs are expressible.
* Cursor tokens are modelled as their decoded payloads: the codec pipeline
  (superJson + base64url) is an external, lossless stage and is abstracted
  as the identity.
* The query builder is modelled symbolically: a `Query` records exactly what
  the dialect applied (sort set, limit, offset, cursor predicate), and
  `interpQuery` gives the SQL meaning of such a query against a table, with
  the unified NULL convention (Asc ⇒ NULLS FIRST, Desc ⇒ NULLS LAST) that all
  shipped dialects implement.
* `throw` / `try` / `catch` are modelled with `Except`; errors thrown by
  external collaborators (the database driver) are `Err.ext`.
* `createHash("sha256")` from node:crypto is implemented bit-faithfully below
  over `Nat` (checked against the standard SHA-256 test vectors).
-/

namespace KyselyCursor

/-! ### SHA-256 over `Nat` (model of node:crypto `createHash("sha256")`) -/

/-- Truncation to 32 bits. -/
def w32 (n : Nat) : Nat := n % 4294967296

/-- Rotate a 32-bit word right by `n`. -/
def rotr32 (x n : Nat) : Nat := w32 ((x >>> n) ||| (x <<< (32 - n)))

/-- SHA-256 round constants. -/
def shaK : List Nat :=
  [1116352408, 1899447441, 3049323471, 3921009573, 961987163, 1508970993, 2453635748, 2870763221,
   3624381080, 310598401, 607225278, 1426881987, 1925078388, 2162078206, 2614888103, 3248222580,
   3835390401, 4022224774, 264347078, 604807628, 770255983, 1249150122, 1555081692, 1996064986,
   2554220882, 2821834349, 2952996808, 3210313671, 3336571891, 3584528711, 113926993, 338241895,
   666307205, 773529912, 1294757372, 1396182291, 1695183700, 1986661051, 2177026350, 2456956037,
   2730485921, 2820302411, 3259730800, 3345764771, 3516065817, 3600352804, 4094571909, 275423344,
   430227734, 506948616, 659060556, 883997877, 958139571, 1322822218, 1537002063, 1747873779,
   1955562222, 2024104815, 2227730452, 2361852424, 2428436474, 2756734187, 3204031479, 3329325298]

/-- UTF-8 encoding of a unicode code point. -/
def utf8Bytes (c : Nat) : List Nat :=
  if c < 0x80 then [c]
  else if c < 0x800 then [0xC0 + c / 0x40, 0x80 + c % 0x40]
  else if c < 0x10000 then [0xE0 + c / 0x1000, 0x80 + (c / 0x40) % 0x40, 0x80 + c % 0x40]
  else [0xF0 + c / 0x40000, 0x80 + (c / 0x1000) % 0x40, 0x80 + (c / 0x40) % 0x40, 0x80 + c % 0x40]

/-- UTF-8 bytes of a string. -/
def strBytes (s : String) : List Nat := s.data.flatMap (fun c => utf8Bytes c.toNat)

/-- SHA-256 padding: append `0x80`, zeros, and the 64-bit big-endian bit length. -/
def shaPad (msg : List Nat) : List Nat :=
  let len := msg.length
  let bitLen := len * 8
  let zeros := (64 - (len + 9) % 64) % 64
  msg ++ [0x80] ++ List.replicate zeros 0 ++
    [(bitLen >>> 56) % 256, (bitLen >>> 48) % 256, (bitLen >>> 40) % 256, (bitLen >>> 32) % 256,
     (bitLen >>> 24) % 256, (bitLen >>> 16) % 256, (bitLen >>> 8) % 256, bitLen % 256]

/-- Group padded bytes into 32-bit big-endian words (fuel-driven structural recursion
so that proofs can evaluate it inside the kernel). -/
def toWords : Nat → List Nat → List Nat
  | 0, _ => []
  | fuel + 1, b0 :: b1 :: b2 :: b3 :: rest =>
      (((b0 * 256 + b1) * 256 + b2) * 256 + b3) :: toWords fuel rest
  | _ + 1, _ => []

/-- SHA-256 σ₀. -/
def smallSigma0 (x : Nat) : Nat := (rotr32 x 7) ^^^ (rotr32 x 18) ^^^ (x >>> 3)

/-- SHA-256 σ₁. -/
def smallSigma1 (x : Nat) : Nat := (rotr32 x 17) ^^^ (rotr32 x 19) ^^^ (x >>> 10)

/-- SHA-256 Σ₀. -/
def bigSigma0 (x : Nat) : Nat := (rotr32 x 2) ^^^ (rotr32 x 13) ^^^ (rotr32 x 22)

/-- SHA-256 Σ₁. -/
def bigSigma1 (x : Nat) : Nat := (rotr32 x 6) ^^^ (rotr32 x 11) ^^^ (rotr32 x 25)

/-- Message schedule: extend the 16 block words (given reversed) by `n` further
words; returns the full schedule in order. -/
def extendSched : Nat → List Nat → List Nat
  | 0, acc => acc.reverse
  | n + 1, acc =>
      extendSched n
        (w32 (smallSigma1 (acc.getD 1 0) + acc.getD 6 0 + smallSigma0 (acc.getD 14 0) +
            acc.getD 15 0) :: acc)

/-- The eight SHA-256 working registers. -/
structure ShaState where
  sa : Nat
  sb : Nat
  sc : Nat
  sd : Nat
  se : Nat
  sf : Nat
  sg : Nat
  sh : Nat

/-- One SHA-256 compression round. -/
def shaRound (st : ShaState) (ki wi : Nat) : ShaState :=
  let ch := (st.se &&& st.sf) ^^^ ((4294967295 - st.se) &&& st.sg)
  let t1 := w32 (st.sh + bigSigma1 st.se + ch + ki + wi)
  let maj := (st.sa &&& st.sb) ^^^ (st.sa &&& st.sc) ^^^ (st.sb &&& st.sc)
  let t2 := w32 (bigSigma0 st.sa + maj)
  ⟨w32 (t1 + t2), st.sa, st.sb, st.sc, w32 (st.sd + t1), st.se, st.sf, st.sg⟩

/-- Compress one 16-word block into the running digest. -/
def processBlock (hs : List Nat) (block : List Nat) : List Nat :=
  let w := extendSched 48 block.reverse
  let init : ShaState :=
    ⟨hs.getD 0 0, hs.getD 1 0, hs.getD 2 0, hs.getD 3 0,
     hs.getD 4 0, hs.getD 5 0, hs.getD 6 0, hs.getD 7 0⟩
  let fin := (List.zip shaK w).foldl (fun st p => shaRound st p.1 p.2) init
  [w32 (hs.getD 0 0 + fin.sa), w32 (hs.getD 1 0 + fin.sb), w32 (hs.getD 2 0 + fin.sc),
   w32 (hs.getD 3 0 + fin.sd), w32 (hs.getD 4 0 + fin.se), w32 (hs.getD 5 0 + fin.sf),
   w32 (hs.getD 6 0 + fin.sg), w32 (hs.getD 7 0 + fin.sh)]

/-- Process all 16-word blocks (fuel-driven). -/
def processAll : Nat → List Nat → List Nat → List Nat
  | 0, hs, _ => hs
  | fuel + 1, hs, ws =>
      match ws with
      | [] => hs
      | _ => processAll fuel (processBlock hs (ws.take 16)) (ws.drop 16)

/-- SHA-256 initial digest. -/
def shaH0 : List Nat :=
  [1779033703, 3144134277, 1013904242, 2773480762, 1359893119, 2600822924, 528734635, 1541459225]

/-- Lowercase hexadecimal digit. -/
def hexDigit (n : Nat) : Char :=
  if n < 10 then Char.ofNat (48 + n) else Char.ofNat (87 + n)

/-- Lowercase hexadecimal rendering of a 32-bit word. -/
def wordHex (w : Nat) : List Char :=
  [hexDigit ((w >>> 28) % 16), hexDigit ((w >>> 24) % 16), hexDigit ((w >>> 20) % 16),
   hexDigit ((w >>> 16) % 16), hexDigit ((w >>> 12) % 16), hexDigit ((w >>> 8) % 16),
   hexDigit ((w >>> 4) % 16), hexDigit (w % 16)]

/-- Lowercase hex SHA-256 of the UTF-8 bytes of a string; the model of
`createHash("sha256").update(s).digest("hex")`. -/
def sha256hex (s : String) : String :=
  let padded := shaPad (strBytes s)
  let ws := toWords padded.length padded
  let digest := processAll ws.length shaH0 ws
  ⟨digest.flatMap wordHex⟩

/-! ### Sort model (`src/sorting.ts`) -/

/-- Sort direction (`OrderByDirection`). -/
inductive Dir where
  | asc
  | desc
deriving DecidableEq, Repr

/-- Model of `applyDefaultDirection`: `dir ?? "asc"`. -/
def applyDefaultDirection : Option Dir → Dir
  | some d => d
  | none => .asc

/-- A sort item.  `output = some o` models a `SortItem` with an explicit
`output` field; `output = none` models one given only by `col`.
`dir = none` models an absent `dir` field. -/
structure SortItem where
  col : String
  output : Option String
  dir : Option Dir
deriving DecidableEq, Repr

/-! ### Cursor model (`src/cursor.ts`) -/

/-- A SQL value as seen in a selected row: `none` is SQL NULL. -/
abbrev Val := Option Int

/-- A selected row: an association list from keys to values. -/
abbrev Row := List (String × Val)

/-- Reading `row[key]`; a missing key and a NULL both read as `none`. -/
def getV (r : Row) (k : String) : Val := (List.lookup k r).join

/-- Model of `getSortOutput`: the explicit `output` if present, otherwise
`col.split(".").at(-1)`, i.e. the characters after the last `.` (the whole
string when there is no `.`). -/
def getSortOutput (s : SortItem) : String :=
  match s.output with
  | some o => o
  | none => ⟨(s.col.data.reverse.takeWhile (fun c => c ≠ '.')).reverse⟩

/-- Rendering of `s.dir ?? "asc"`. -/
def dirStr : Option Dir → String
  | some .asc => "asc"
  | some .desc => "desc"
  | none => "asc"

/-- One component of the signature input: the source template
`${"output" in s ? s.output : s.col}:${s.dir ?? "asc"}` — note that it uses
the raw `s.col`, not `getSortOutput`. -/
def sigComponent (s : SortItem) : String :=
  (match s.output with
   | some o => o
   | none => s.col) ++ ":" ++ dirStr s.dir

/-- The string hashed by `sortSignature`. -/
def sigInput (sorts : List SortItem) : String :=
  String.intercalate "|" (sorts.map sigComponent)

/-- Model of `sortSignature`: first 8 hex characters of the SHA-256 of the
joined components. -/
def sortSignature (sorts : List SortItem) : String :=
  (sha256hex (sigInput sorts)).take 8

/-- A decoded cursor payload `{ sig, k }`. -/
structure CursorPayload where
  sig : String
  k : List (String × Val)
deriving DecidableEq, Repr

/-- Model of `resolveCursor`: extract the payload of a boundary row. -/
def resolveCursor (item : Row) (sorts : List SortItem) : CursorPayload :=
  { sig := sortSignature sorts
    k := sorts.map (fun s => (getSortOutput s, getV item (getSortOutput s))) }

/-- An incoming cursor object; each field may be present or absent.  Tokens
are modelled by their decoded payloads (the codec is lossless and external).
The `offset` field is a raw JavaScript number, hence `ℚ`. -/
structure CursorIncoming where
  nextPage : Option CursorPayload := none
  prevPage : Option CursorPayload := none
  offset : Option ℚ := none
deriving DecidableEq, Repr

/-- A decoded cursor. -/
inductive DecodedCursor where
  | next (payload : CursorPayload)
  | prev (payload : CursorPayload)
  | offset (n : ℚ)
deriving DecidableEq, Repr

/-- Error codes of `PaginationError` (`src/error.ts`). -/
inductive ErrorCode where
  | INVALID_TOKEN
  | INVALID_SORT
  | INVALID_LIMIT
  | UNEXPECTED_ERROR
deriving DecidableEq, Repr

/-- A `PaginationError`.  `code = none` models errors raised through the
message-only constructor used in `src/cursor.ts`; `cause` holds the wrapped
foreign error, when any. -/
structure PagError where
  message : String
  code : Option ErrorCode
  cause : Option String
deriving DecidableEq, Repr

/-- A thrown JavaScript error: either a `PaginationError` or some other error
from an external collaborator (database driver, codec). -/
inductive Err where
  | pag (e : PagError)
  | ext (e : String)
deriving DecidableEq, Repr

/-- Model of `decodeCursor`: the source tests `"nextPage" in cursor`, then
`"prevPage" in cursor`, then `"offset" in cursor`, and throws
`Invalid cursor` when none matched. -/
def decodeCursor (cursor : CursorIncoming) : Except Err DecodedCursor :=
  match cursor.nextPage with
  | some t => .ok (.next t)
  | none =>
    match cursor.prevPage with
    | some t => .ok (.prev t)
    | none =>
      match cursor.offset with
      | some n => .ok (.offset n)
      | none => .error (.pag ⟨"Invalid cursor", none, none⟩)

/-- The outgoing anchors of `resolvePageTokens`. -/
structure CursorOutgoing where
  startCursor : Option CursorPayload := none
  endCursor : Option CursorPayload := none
  nextPage : Option CursorPayload := none
  prevPage : Option CursorPayload := none
deriving DecidableEq, Repr

/-- The `inverted` flag of `resolvePageTokens`: `decodedCursor?.type === "prev"`. -/
def cursorInverted : Option DecodedCursor → Bool
  | some (.prev _) => true
  | _ => false

/-- The `isFirst` flag of `resolvePageTokens`: no cursor was supplied, or an
offset cursor with offset 0. -/
def cursorIsFirst : Option DecodedCursor → Bool
  | none => true
  | some (.offset n) => decide (n = 0)
  | _ => false

/-- Model of `resolvePageTokens`. -/
def resolvePageTokens (rows : List Row) (sorts : List SortItem)
    (decodedCursor : Option DecodedCursor) (overFetched : Bool) : CursorOutgoing :=
  if rows.length = 0 then {}
  else
    let inverted : Bool := cursorInverted decodedCursor
    let isFirst : Bool := cursorIsFirst decodedCursor
    let first := rows.head?
    let last := rows.getLast?
    let startCursor := first.map (fun r => resolveCursor r sorts)
    let endCursor := last.map (fun r => resolveCursor r sorts)
    { startCursor := startCursor
      endCursor := endCursor
      prevPage := if (!inverted || overFetched) && !isFirst then startCursor else none
      nextPage := if inverted || overFetched then endCursor else none }

/-! ### Keyset predicate builder (`src/cursor.ts`) -/

/-- A comparison operator appearing in `eb(col, cmp, value)`. -/
inductive CmpOp where
  | lt
  | gt
  | eq
deriving DecidableEq, Repr

/-- The boolean WHERE tree produced by the builder.  `eb.or([a, b, …])` and
`eb.and([a, b])` / `x.and(y)` are modelled as right-nested binary
disjunctions / conjunctions. -/
inductive Pred where
  | cmp (col : String) (op : CmpOp) (v : Val)
  | isNull (col : String)
  | isNotNull (col : String)
  | andP (p q : Pred)
  | orP (p q : Pred)
deriving DecidableEq, Repr

/-- Model of `buildCursorPredicateRecursive`.  The source recurses on an
index `idx` into `sorts`; here the list argument is the suffix
`sorts[idx ..]`, so the `idx === sorts.length - 1` test becomes `rest = []`
and the out-of-bounds guard becomes the `[]` case. -/
def buildCursorPredicateRecursive (k : List (String × Val)) :
    List SortItem → Except Err Pred
  | [] => .error (.pag ⟨"Sort index out of bounds", none, none⟩)
  | sort :: rest =>
    let dir := applyDefaultDirection sort.dir
    let col := sort.col
    let key := getSortOutput sort
    match List.lookup key k with
    | none =>
        .error (.pag ⟨"Missing pagination cursor value for \"" ++ key ++ "\"", none, none⟩)
    | some value =>
      let cmp : CmpOp := if dir = .desc then .lt else .gt
      if rest = [] then
        .ok (.cmp col cmp value)
      else do
        let next ← buildCursorPredicateRecursive k rest
        match value with
        | none =>
          if dir = .asc then
            pure (.orP (.andP (.isNull col) next) (.isNotNull col))
          else
            pure (.andP (.isNull col) next)
        | some _ =>
          if dir = .desc then
            pure (.orP (.cmp col cmp value) (.orP (.andP (.cmp col .eq value) next) (.isNull col)))
          else
            pure (.orP (.cmp col cmp value) (.andP (.cmp col .eq value) next))

/-- SQL evaluation of `x OP v` in a WHERE clause: a comparison with NULL on
either side is not TRUE, hence filtered out. -/
def evalCmp (op : CmpOp) (x v : Val) : Bool :=
  match x, v with
  | some a, some b =>
    match op with
    | .lt => a < b
    | .gt => b < a
    | .eq => a = b
  | _, _ => false

/-- SQL truth of a WHERE tree against a row (TRUE vs NOT-TRUE of the
three-valued logic). -/
def evalPred (r : Row) : Pred → Bool
  | .cmp col op v => evalCmp op (getV r col) v
  | .isNull col => (getV r col).isNone
  | .isNotNull col => (getV r col).isSome
  | .andP p q => evalPred r p && evalPred r q
  | .orP p q => evalPred r p || evalPred r q

/-! ### Symbolic query and dialect semantics

The dialect contract (`applySort` / `applyLimit` / `applyOffset` /
`applyCursor`) is modelled symbolically: a `Query` records what was applied,
and `interpQuery` is the SQL meaning of executing it against a table. -/

/-- What the paginator applied to the caller's query through the dialect. -/
structure Query where
  sortsApplied : List SortItem := []
  limitApplied : Option ℚ := none
  offsetApplied : Option ℚ := none
  cursorPredApplied : Option Pred := none
deriving DecidableEq, Repr

/-- Dialect `applySort`: appends one ORDER BY term per sort item. -/
def applySort (q : Query) (sorts : List SortItem) : Query :=
  { q with sortsApplied := sorts }

/-- Dialect `applyLimit` (the `cursorType` hint only selects syntax). -/
def applyLimit (q : Query) (n : ℚ) : Query :=
  { q with limitApplied := some n }

/-- Dialect `applyOffset`. -/
def applyOffset (q : Query) (n : ℚ) : Query :=
  { q with offsetApplied := some n }

/-- Model of `baseApplyCursor`: `builder.where(eb =>
buildCursorPredicateRecursive(eb, sorts, cursor.payload))`, shared by all
dialects. -/
def baseApplyCursor (q : Query) (sorts : List SortItem) (payload : CursorPayload) :
    Except Err Query :=
  (buildCursorPredicateRecursive payload.k sorts).map
    (fun p => { q with cursorPredApplied := some p })

/-- Three-way comparison of integers. -/
def icmp (x y : Int) : Ordering :=
  if x < y then .lt else if x = y then .eq else .gt

/-- Per-column ordering of the unified NULL convention: Asc ⇒ NULLS FIRST,
Desc ⇒ NULLS LAST. -/
def valCmp (d : Dir) (x y : Val) : Ordering :=
  match d, x, y with
  | _, none, none => .eq
  | .asc, none, some _ => .lt
  | .asc, some _, none => .gt
  | .asc, some a, some b => icmp a b
  | .desc, none, some _ => .gt
  | .desc, some _, none => .lt
  | .desc, some a, some b => icmp b a

/-- Lexicographic row comparison along a sort set (each ORDER BY term reads
the row through its column reference). -/
def lexCmp (sorts : List SortItem) (a b : Row) : Ordering :=
  match sorts with
  | [] => .eq
  | s :: rest =>
    match valCmp (applyDefaultDirection s.dir) (getV a s.col) (getV b s.col) with
    | .eq => lexCmp rest a b
    | o => o

/-- The ORDER BY of the dialect: sort the table by the sort set. -/
def sortRows (sorts : List SortItem) (rows : List Row) : List Row :=
  List.insertionSort (fun a b => lexCmp sorts a b ≠ .gt) rows

/-- Clamp of a JavaScript number used as a row count. -/
def ratToNat (q : ℚ) : Nat := q.num.toNat

/-- SQL meaning of a symbolic query against a table: ORDER BY, then the
keyset WHERE predicate, then OFFSET, then LIMIT.  (In SQL the WHERE is
applied before the ORDER BY; filtering commutes with sorting, and this
ordering matches the paginator's slicing arithmetic directly.) -/
def interpQuery (db : List Row) (q : Query) : List Row :=
  let sorted := sortRows q.sortsApplied db
  let filtered := match q.cursorPredApplied with
    | none => sorted
    | some p => sorted.filter (fun r => evalPred r p)
  let shifted := match q.offsetApplied with
    | none => filtered
    | some n => filtered.drop (ratToNat n)
  match q.limitApplied with
  | none => shifted
  | some n => shifted.take (ratToNat n)

/-! ### Paginator (`src/paginator.ts`) -/

/-- What `paginate` returns. -/
structure PaginatedResult where
  items : List Row
  startCursor : Option CursorPayload
  endCursor : Option CursorPayload
  nextPage : Option CursorPayload
  prevPage : Option CursorPayload
  hasNextPage : Bool
  hasPrevPage : Bool
deriving DecidableEq, Repr

/-- Model of `assertLimitSorts`: `Number.isInteger(limit) && limit > 0`, then
`sorts.length >= 1`. -/
def assertLimitSorts (limit : ℚ) (sorts : List SortItem) : Except Err Unit :=
  if ¬ (limit.isInt = true ∧ 0 < limit) then
    .error (.pag ⟨"Invalid page size limit", some .INVALID_LIMIT, none⟩)
  else if sorts.length < 1 then
    .error (.pag ⟨"Cannot paginate without sorting", some .INVALID_SORT, none⟩)
  else
    .ok ()

/-- Model of `invertSorts`: swap Asc↔Desc (an unset direction counts as
Asc), keeping `col` and `output`. -/
def invertSorts (sorts : List SortItem) : List SortItem :=
  sorts.map (fun s =>
    { s with dir := some (if applyDefaultDirection s.dir = .desc then .asc else .desc) })

/-- Model of the `catch` block of `paginate`: a `PaginationError` is
re-thrown unchanged, anything else is wrapped. -/
def wrapErrors (r : Except Err α) : Except Err α :=
  match r with
  | .error (.pag e) => .error (.pag e)
  | .error (.ext e) =>
      .error (.pag ⟨"Failed to paginate", some .UNEXPECTED_ERROR, some e⟩)
  | .ok v => .ok v

/-- Step 1 of the `try` body: `cursor ? await decodeCursor(...) : null`. -/
def decodedCursorOf (cursor : Option CursorIncoming) : Except Err (Option DecodedCursor) :=
  match cursor with
  | some c => (decodeCursor c).map some
  | none => .ok none

/-- Step 2: `decodedCursor?.type === "prev" ? invertSorts(sorts) : sorts`. -/
def sortsAppliedOf (sorts : List SortItem) : Option DecodedCursor → List SortItem
  | some (.prev _) => invertSorts sorts
  | _ => sorts

/-- Step 3, the cursor branch of the body: either apply the offset, or
verify the signature against the original `sorts` and apply the keyset
predicate built from `sortsApplied`. -/
def applyCursorStep (q1 : Query) (sorts sortsApplied : List SortItem) :
    Option DecodedCursor → Except Err Query
  | none => .ok q1
  | some (.offset n) => .ok (applyOffset q1 n)
  | some (.next p) =>
      if p.sig ≠ sortSignature sorts then
        .error (.pag ⟨"Page token does not match sort order", some .INVALID_TOKEN, none⟩)
      else
        baseApplyCursor q1 sortsApplied p
  | some (.prev p) =>
      if p.sig ≠ sortSignature sorts then
        .error (.pag ⟨"Page token does not match sort order", some .INVALID_TOKEN, none⟩)
      else
        baseApplyCursor q1 sortsApplied p

/-- Step 4: slice (and for `prev` reverse) the fetched rows, and emit the
tokens; `rows.slice(0, limit)` and `rows.length > limit`. -/
def mkPage (decodedCursor : Option DecodedCursor) (sorts : List SortItem) (lim : Nat)
    (rows : List Row) : PaginatedResult :=
  let items := match decodedCursor with
    | some (.prev _) => (rows.take lim).reverse
    | _ => rows.take lim
  let toks := resolvePageTokens items sorts decodedCursor (decide (lim < rows.length))
  { items := items
    startCursor := toks.startCursor
    endCursor := toks.endCursor
    nextPage := toks.nextPage
    prevPage := toks.prevPage
    hasNextPage := toks.nextPage.isSome
    hasPrevPage := toks.prevPage.isSome }

/-- The `try` body of `paginate`, the steps above chained with the `throw`
short-circuits written out.  `db` is the outcome the database driver would
deliver for `q.execute()` (its `.error` case models a driver throw).  The
applied symbolic query is returned alongside the result so that theorems can
speak about what was sent to the database. -/
def paginateBody (db : Except String (List Row)) (sorts : List SortItem) (limit : ℚ)
    (cursor : Option CursorIncoming) : Except Err (PaginatedResult × Query) :=
  match decodedCursorOf cursor with
  | .error e => .error e
  | .ok decodedCursor =>
    match applyCursorStep
        (applyLimit (applySort {} (sortsAppliedOf sorts decodedCursor)) (limit + 1))
        sorts (sortsAppliedOf sorts decodedCursor) decodedCursor with
    | .error e => .error e
    | .ok q2 =>
      match db with
      | .error e => .error (.ext e)
      | .ok table =>
        .ok (mkPage decodedCursor sorts (ratToNat limit) (interpQuery table q2), q2)

/-- Model of `paginate`: eager validation outside the `try`, then the body
under the catch-all wrapper. -/
def paginate (db : Except String (List Row)) (sorts : List SortItem) (limit : ℚ)
    (cursor : Option CursorIncoming) : Except Err (PaginatedResult × Query) :=
  match assertLimitSorts limit sorts with
  | .error e => .error e
  | .ok _ => wrapErrors (paginateBody db sorts limit cursor)

/-- Iterating `paginate`: start with no cursor, then follow each emitted
`nextPage` token until none is emitted, concatenating the pages.  `fuel`
bounds the number of round trips. -/
def pageThrough (db : List Row) (sorts : List SortItem) (limit : ℚ) :
    Nat → Option CursorPayload → Except Err (List Row)
  | 0, _ => .ok []
  | fuel + 1, cur =>
    match paginate (.ok db) sorts limit (cur.map fun p => { nextPage := some p }) with
    | .error e => .error e
    | .ok (r, _) =>
      match r.nextPage with
      | none => .ok r.items
      | some p =>
        match pageThrough db sorts limit fuel (some p) with
        | .error e => .error e
        | .ok rest => .ok (r.items ++ rest)

/-! ### Spec-side definitions

The following definitions transcribe the specification's own wording (not the
source); they exist to be compared against the source-derived definitions
above. -/

/-- Spec §4.3 step 1, key derivation: the output key — `output` if explicit,
else the substring after the last `.`. -/
def specSigInput (sorts : List SortItem) : String :=
  String.intercalate "|" (sorts.map (fun s => getSortOutput s ++ ":" ++ dirStr s.dir))

/-- Spec §4.3: first 8 hex characters of the SHA-256 of the joined
`"<key>:<dir>"` components, with `<key>` the output key. -/
def specSortSignature (sorts : List SortItem) : String :=
  (sha256hex (specSigInput sorts)).take 8

/-- Spec §4.5: `cmp = (d == Desc ? "<" : ">")`. -/
def specCmp (s : SortItem) : CmpOp :=
  if applyDefaultDirection s.dir = .desc then .lt else .gt

/-- Spec §4.5: the boundary value of a sort item — the payload's value for
the item's output key (the spec presumes the key is present; absence is
mapped to NULL here and excluded by hypothesis where it matters). -/
def specBoundary (k : List (String × Val)) (s : SortItem) : Val :=
  (List.lookup (getSortOutput s) k).getD none

/-- Spec §4.5, recursive synthesis, transcribed clause by clause for a
non-empty sort set `s :: rest`:
* last item: `c cmp v`;
* `v` null, Asc: `(c IS NULL AND next) OR (c IS NOT NULL)`;
* `v` null, Desc: `(c IS NULL AND next)`;
* `v` non-null: `(c cmp v) OR (c = v AND next)`, with the extra top-level
  disjunct `OR (c IS NULL)` exactly when `d == Desc`. -/
def specCursorPredicate (k : List (String × Val)) : SortItem → List SortItem → Pred
  | s, [] => .cmp s.col (specCmp s) (specBoundary k s)
  | s, s2 :: rest =>
    let next := specCursorPredicate k s2 rest
    match specBoundary k s, applyDefaultDirection s.dir with
    | none, .asc => .orP (.andP (.isNull s.col) next) (.isNotNull s.col)
    | none, .desc => .andP (.isNull s.col) next
    | some v, .asc =>
        .orP (.cmp s.col (specCmp s) (some v)) (.andP (.cmp s.col .eq (some v)) next)
    | some v, .desc =>
        .orP (.cmp s.col (specCmp s) (some v))
          (.orP (.andP (.cmp s.col .eq (some v)) next) (.isNull s.col))

/-! ### C2: the keyset predicate builder matches the spec's recursion -/

/-- One-step unfolding of `buildCursorPredicateRecursive` on a non-empty
suffix, for targeted rewriting. -/
theorem build_cons (k : List (String × Val)) (s : SortItem) (rest : List SortItem) :
    buildCursorPredicateRecursive k (s :: rest)
      = (match List.lookup (getSortOutput s) k with
        | none =>
            .error (.pag ⟨"Missing pagination cursor value for \"" ++ getSortOutput s ++ "\"",
              none, none⟩)
        | some value =>
          if rest = [] then
            .ok (.cmp s.col (if applyDefaultDirection s.dir = .desc then .lt else .gt) value)
          else do
            let next ← buildCursorPredicateRecursive k rest
            match value with
            | none =>
              if applyDefaultDirection s.dir = .asc then
                pure (.orP (.andP (.isNull s.col) next) (.isNotNull s.col))
              else
                pure (.andP (.isNull s.col) next)
            | some _ =>
              if applyDefaultDirection s.dir = .desc then
                pure (.orP
                  (.cmp s.col (if applyDefaultDirection s.dir = .desc then .lt else .gt) value)
                  (.orP (.andP (.cmp s.col .eq value) next) (.isNull s.col)))
              else
                pure (.orP
                  (.cmp s.col (if applyDefaultDirection s.dir = .desc then .lt else .gt) value)
                  (.andP (.cmp s.col .eq value) next))) := rfl

/-- C2: for a non-empty sort set whose every output key has a value in the
payload, `buildCursorPredicateRecursive` produces exactly the predicate of
the specification's recursive synthesis (`specCursorPredicate`, transcribed
from the spec's wording). -/
theorem buildCursorPredicate_matches_spec (k : List (String × Val)) (s0 : SortItem)
    (rest : List SortItem)
    (hk : ∀ s ∈ s0 :: rest, (List.lookup (getSortOutput s) k).isSome = true) :
    buildCursorPredicateRecursive k (s0 :: rest)
      = .ok (specCursorPredicate k s0 rest) := by
  induction rest generalizing s0 with
  | nil =>
    obtain ⟨v, hv⟩ := Option.isSome_iff_exists.mp (hk s0 (by simp))
    rw [build_cons, hv]
    simp [specCursorPredicate, specBoundary, specCmp, hv]
  | cons s2 rest ih =>
    obtain ⟨v, hv⟩ := Option.isSome_iff_exists.mp (hk s0 (by simp))
    have hnext := ih s2 (fun s hs => hk s (by simp [hs]))
    rw [build_cons, hv, hnext]
    cases v with
    | none =>
      cases hdir : applyDefaultDirection s0.dir <;>
        simp [specCursorPredicate, specBoundary, specCmp, hv, hdir,
          Bind.bind, Except.bind, pure, Except.pure]
    | some x =>
      cases hdir : applyDefaultDirection s0.dir <;>
        simp [specCursorPredicate, specBoundary, specCmp, hv, hdir,
          Bind.bind, Except.bind, pure, Except.pure]

/-- C2 witness: the builder applied to a two-item sort set with a NULL
boundary on a descending leading column. -/
theorem buildCursorPredicate_matches_spec_witness :
    buildCursorPredicateRecursive [("rating", none), ("id", some 7)]
        [⟨"rating", none, some .desc⟩, ⟨"id", none, some .asc⟩]
      = .ok (specCursorPredicate [("rating", none), ("id", some 7)]
          ⟨"rating", none, some .desc⟩ [⟨"id", none, some .asc⟩]) :=
  buildCursorPredicate_matches_spec [("rating", none), ("id", some 7)]
    ⟨"rating", none, some .desc⟩ [⟨"id", none, some .asc⟩] (by decide)

/-! ### C3: the sort signature hashes the raw column reference -/

set_option maxRecDepth 1000000 in
/-- C3 (counterexample): for the qualified column reference `"users.id"`
with no explicit output, the signature hashes the component
`"users.id:asc"`, not `"id:asc"` as the claim states: the code signature is
the prefix of SHA-256("users.id:asc") and differs from the claimed
prefix of SHA-256("id:asc"). -/
theorem sortSignature_qualified_counterexample :
    sigInput [⟨"users.id", none, none⟩] = "users.id:asc"
    ∧ specSigInput [⟨"users.id", none, none⟩] = "id:asc"
    ∧ sortSignature [⟨"users.id", none, none⟩] = "665e4d37"
    ∧ specSortSignature [⟨"users.id", none, none⟩] = "cd2f9088"
    ∧ sortSignature [⟨"users.id", none, none⟩]
        ≠ specSortSignature [⟨"users.id", none, none⟩] := by
  refine ⟨by decide, by decide, by decide, by decide, by decide⟩

/-- C3 (amended): the signature is the first 8 characters of the lowercase
hex SHA-256 of the UTF-8 string joining, with `|`, one `"<key>:<dir>"`
component per item, where `<key>` is the explicit `output` if present and
otherwise the raw column reference string (qualification included), and
`<dir>` defaults to `asc`. -/
theorem sortSignature_amended (sorts : List SortItem) :
    sortSignature sorts
      = (sha256hex (String.intercalate "|" (sorts.map (fun s =>
          (match s.output with
           | some o => o
           | none => s.col) ++ ":" ++ dirStr s.dir)))).take 8
    ∧ sortSignature [⟨"users.id", none, none⟩] = (sha256hex "users.id:asc").take 8
    ∧ dirStr none = "asc" :=
  ⟨rfl, rfl, rfl⟩

/-! ### General helper lemmas -/

/-- Inversion for `Except` bind. -/
theorem exceptBind_ok {ε α β : Type} {x : Except ε α} {f : α → Except ε β} {b : β} :
    (x >>= f) = .ok b ↔ ∃ a, x = .ok a ∧ f a = .ok b := by
  cases x <;> simp [Bind.bind, Except.bind]

/-- Inversion for `Except` bind, error case. -/
theorem exceptBind_error {ε α β : Type} {x : Except ε α} {f : α → Except ε β} {e : ε} :
    (x >>= f) = .error e ↔ x = .error e ∨ ∃ a, x = .ok a ∧ f a = .error e := by
  cases x <;> simp [Bind.bind, Except.bind]

/-- The `Invalid cursor` error value. -/
def invalidCursorErr : Err := .pag ⟨"Invalid cursor", none, none⟩

/-! ### C6: decodeCursor dispatch -/

/-- A sample payload. -/
def samplePayloadN : CursorPayload := ⟨"sigN", [("id", some 1)]⟩

/-- Another sample payload. -/
def samplePayloadP : CursorPayload := ⟨"sigP", [("id", some 2)]⟩

/-- C6 (counterexample): an incoming cursor carrying BOTH `nextPage` and
`prevPage` does not fail with `Invalid cursor`; decoding succeeds and takes
the `nextPage` branch.  This falsifies the claim that more than one present
field is rejected. -/
theorem decodeCursor_multi_field_counterexample :
    ({ nextPage := some samplePayloadN, prevPage := some samplePayloadP :
        CursorIncoming }).nextPage.isSome = true
    ∧ ({ nextPage := some samplePayloadN, prevPage := some samplePayloadP :
        CursorIncoming }).prevPage.isSome = true
    ∧ decodeCursor { nextPage := some samplePayloadN, prevPage := some samplePayloadP }
        = .ok (.next samplePayloadN) := by
  exact ⟨rfl, rfl, rfl⟩

/-- C6 (amended): decoding dispatches by priority `nextPage`, then
`prevPage`, then `offset`; it fails with `Invalid cursor` exactly when none
of the three fields is present — in particular a cursor with several fields
present is not rejected, the highest-priority field wins. -/
theorem decodeCursor_dispatch (c : CursorIncoming) :
    (decodeCursor c = .error invalidCursorErr
        ↔ c.nextPage = none ∧ c.prevPage = none ∧ c.offset = none)
    ∧ (∀ t, c.nextPage = some t → decodeCursor c = .ok (.next t))
    ∧ (∀ t, c.nextPage = none → c.prevPage = some t → decodeCursor c = .ok (.prev t))
    ∧ (∀ n, c.nextPage = none → c.prevPage = none → c.offset = some n →
        decodeCursor c = .ok (.offset n)) := by
  obtain ⟨np, pp, off⟩ := c
  refine ⟨?_, ?_, ?_, ?_⟩ <;>
    cases np <;> cases pp <;> cases off <;>
      simp [decodeCursor, invalidCursorErr]

/-- C6 witness: the dispatch theorem applied to a concrete cursor. -/
theorem decodeCursor_dispatch_witness :
    decodeCursor { prevPage := some samplePayloadP } = .ok (.prev samplePayloadP) :=
  (decodeCursor_dispatch { prevPage := some samplePayloadP }).2.2.1
    samplePayloadP rfl rfl

/-! ### C8: precondition validation order -/

/-- C8: `paginate` validates `limit` first (`Invalid page size limit`,
`INVALID_LIMIT`), then requires a non-empty sort set (`Cannot paginate
without sorting`, `INVALID_SORT`); the limit error wins when both fail. -/
theorem paginate_precondition_order (db : Except String (List Row))
    (sorts : List SortItem) (limit : ℚ) (cursor : Option CursorIncoming) :
    (¬ (limit.isInt = true ∧ 0 < limit) →
      paginate db sorts limit cursor
        = .error (.pag ⟨"Invalid page size limit", some .INVALID_LIMIT, none⟩))
    ∧ ((limit.isInt = true ∧ 0 < limit) → sorts = [] →
      paginate db sorts limit cursor
        = .error (.pag ⟨"Cannot paginate without sorting", some .INVALID_SORT, none⟩)) := by
  constructor
  · intro h
    simp [paginate, assertLimitSorts, h, Bind.bind, Except.bind]
  · intro h he
    subst he
    simp [paginate, assertLimitSorts, h, Bind.bind, Except.bind]

/-- C8 witness: with `limit = 0` and an empty sort set, the limit error is
raised. -/
theorem paginate_precondition_order_witness :
    paginate (.ok []) [] 0 none
      = .error (.pag ⟨"Invalid page size limit", some .INVALID_LIMIT, none⟩) :=
  (paginate_precondition_order (.ok []) [] 0 none).1 (by decide)

/-! ### C10: offset cursors are forwarded unvalidated -/

/-- C10: for any number `n` — negative or non-integer included — an incoming
`{ offset: n }` cursor decodes to `Offset n` with no validation, `paginate`
succeeds, the signature check is skipped (no cursor predicate is applied),
and `n` reaches the dialect's `applyOffset` unchanged. -/
theorem paginate_offset_forwarded (db : List Row) (sorts : List SortItem)
    (limit : ℚ) (n : ℚ)
    (hl : limit.isInt = true ∧ 0 < limit) (hs : sorts ≠ []) :
    decodeCursor { offset := some n } = .ok (.offset n)
    ∧ ∃ r q, paginate (.ok db) sorts limit (some { offset := some n }) = .ok (r, q)
        ∧ q.offsetApplied = some n ∧ q.cursorPredApplied = none := by
  have hlen : ¬ (sorts.length < 1) := by
    cases sorts with
    | nil => exact absurd rfl hs
    | cons a l => simp
  refine ⟨rfl, ?_⟩
  obtain ⟨r, q, hb, ho, hc⟩ :
      ∃ r q, paginateBody (.ok db) sorts limit (some { offset := some n }) = .ok (r, q)
        ∧ q.offsetApplied = some n ∧ q.cursorPredApplied = none :=
    ⟨_, _, rfl, rfl, rfl⟩
  refine ⟨r, q, ?_, ho, hc⟩
  simp [paginate, assertLimitSorts, hl, hlen, Bind.bind, Except.bind, hb, wrapErrors]

/-- C10 witness: a negative non-integer offset is forwarded untouched. -/
theorem paginate_offset_forwarded_witness :
    decodeCursor { offset := some (-7/2 : ℚ) } = .ok (.offset (-7/2 : ℚ))
    ∧ ∃ r q, paginate (.ok []) [⟨"id", none, none⟩] 1 (some { offset := some (-7/2 : ℚ) })
        = .ok (r, q)
        ∧ q.offsetApplied = some (-7/2 : ℚ) ∧ q.cursorPredApplied = none :=
  paginate_offset_forwarded [] [⟨"id", none, none⟩] 1 (-7/2 : ℚ)
    (by constructor <;> decide) (by decide)

/-! ### C4: token emission -/

/-- Inversion for `wrapErrors`. -/
theorem wrapErrors_ok {α : Type} {x : Except Err α} {y : α} :
    wrapErrors x = .ok y ↔ x = .ok y := by
  cases x with
  | ok v => simp [wrapErrors]
  | error e => cases e <;> simp [wrapErrors]

/-- Every successful `paginate` result sets `hasNextPage` / `hasPrevPage` to
the presence of the corresponding token. -/
theorem paginateBody_ok_flags {db : Except String (List Row)} {sorts : List SortItem}
    {limit : ℚ} {cursor : Option CursorIncoming} {r : PaginatedResult} {q : Query}
    (h : paginateBody db sorts limit cursor = .ok (r, q)) :
    r.hasNextPage = r.nextPage.isSome ∧ r.hasPrevPage = r.prevPage.isSome := by
  unfold paginateBody at h
  split at h
  · simp at h
  · split at h
    · simp at h
    · split at h
      · simp at h
      · simp only [Except.ok.injEq, Prod.mk.injEq] at h
        obtain ⟨hr, -⟩ := h
        subst hr
        exact ⟨rfl, rfl⟩

/-- C4: token emission.  With no items, no anchors and no tokens are
emitted; otherwise `startCursor` / `endCursor` anchor the first / last item,
`prevPage` is emitted exactly when `(!inverted OR overFetched) AND
!isFirst`, `nextPage` exactly when `inverted OR overFetched`; and
`hasNextPage` / `hasPrevPage` of a successful `paginate` are exactly the
presence of the corresponding token. -/
theorem pageTokens_emission (sorts : List SortItem) (cur : Option DecodedCursor)
    (over : Bool) :
    (resolvePageTokens [] sorts cur over
        = { startCursor := none, endCursor := none, nextPage := none, prevPage := none })
    ∧ (∀ rows (h : rows ≠ []),
        (resolvePageTokens rows sorts cur over).startCursor
            = some (resolveCursor (rows.head h) sorts)
        ∧ (resolvePageTokens rows sorts cur over).endCursor
            = some (resolveCursor (rows.getLast h) sorts)
        ∧ (resolvePageTokens rows sorts cur over).prevPage
            = (if ((!cursorInverted cur || over) && !cursorIsFirst cur) = true
               then some (resolveCursor (rows.head h) sorts) else none)
        ∧ (resolvePageTokens rows sorts cur over).nextPage
            = (if (cursorInverted cur || over) = true
               then some (resolveCursor (rows.getLast h) sorts) else none))
    ∧ (∀ db limit cursor r q,
        paginate db sorts limit cursor = .ok (r, q) →
        r.hasNextPage = r.nextPage.isSome ∧ r.hasPrevPage = r.prevPage.isSome) := by
  refine ⟨by simp [resolvePageTokens], ?_, ?_⟩
  · intro rows h
    have hlen : ¬ (rows.length = 0) := by simpa using h
    simp [resolvePageTokens, hlen, List.head?_eq_head h,
      List.getLast?_eq_getLast rows h]
  · intro db limit cursor r q hok
    unfold paginate at hok
    split at hok
    · simp at hok
    · exact paginateBody_ok_flags (wrapErrors_ok.mp hok)

/-- A one-item sort set used by witnesses. -/
def sampleSorts : List SortItem := [⟨"id", none, none⟩]

/-- A one-column row used by witnesses. -/
def sampleRow : Row := [("id", some 5)]

/-- C4 witness: emission evaluated through the theorem on a one-row page
fetched backward with over-fetch. -/
theorem pageTokens_emission_witness :
    (resolvePageTokens [sampleRow] sampleSorts (some (.prev samplePayloadP)) true).nextPage
      = some (resolveCursor sampleRow sampleSorts) := by
  have h := ((pageTokens_emission sampleSorts (some (.prev samplePayloadP)) true).2.1
    [sampleRow] (by simp)).2.2.2
  rw [h]
  rfl

/-! ### C7: signature verification -/

/-- Every error of the predicate builder is a message-only
`PaginationError` (no code). -/
theorem build_error_shape (k : List (String × Val)) :
    ∀ sl e, buildCursorPredicateRecursive k sl = .error e →
      ∃ m, e = .pag ⟨m, none, none⟩ := by
  intro sl
  induction sl with
  | nil =>
    intro e h
    rw [show buildCursorPredicateRecursive k []
        = .error (.pag ⟨"Sort index out of bounds", none, none⟩) from rfl] at h
    cases h
    exact ⟨_, rfl⟩
  | cons s rest ih =>
    intro e h
    rw [build_cons] at h
    cases hv : List.lookup (getSortOutput s) k with
    | none =>
      simp only [hv] at h
      cases h
      exact ⟨_, rfl⟩
    | some v =>
      simp only [hv] at h
      by_cases hr : rest = []
      · rw [if_pos hr] at h
        simp at h
      · rw [if_neg hr] at h
        rcases exceptBind_error.mp h with h1 | ⟨a, ha, h2⟩
        · exact ih e h1
        · exfalso
          cases v <;> dsimp only at h2 <;> split at h2 <;>
            simp [pure, Except.pure] at h2

/-- C7: for a `Next` or `Prev` cursor, a payload whose `sig` differs from
the signature of the supplied sort set makes `paginate` fail with
`Page token does not match sort order` / `INVALID_TOKEN` (so no query is
executed and no cursor predicate is applied); with an equal signature this
error is never raised. -/
theorem paginate_signature_check (db : Except String (List Row)) (sorts : List SortItem)
    (limit : ℚ) (p : CursorPayload) (c : CursorIncoming)
    (hl : limit.isInt = true ∧ 0 < limit) (hs : sorts ≠ [])
    (hc : c = { nextPage := some p } ∨ c = { prevPage := some p }) :
    (p.sig ≠ sortSignature sorts →
      paginate db sorts limit (some c)
        = .error (.pag ⟨"Page token does not match sort order", some .INVALID_TOKEN, none⟩))
    ∧ (p.sig = sortSignature sorts →
      paginate db sorts limit (some c)
        ≠ .error (.pag ⟨"Page token does not match sort order", some .INVALID_TOKEN, none⟩)) := by
  have hlen : ¬ (sorts.length < 1) := by
    cases sorts with
    | nil => exact absurd rfl hs
    | cons a l => simp
  have hassert : assertLimitSorts limit sorts = .ok () := by
    simp [assertLimitSorts, hl, hlen]
  constructor
  · intro hsig
    rcases hc with rfl | rfl <;>
      simp [paginate, hassert, paginateBody, decodedCursorOf, decodeCursor,
        applyCursorStep, hsig, wrapErrors, Except.map]
  · intro hsig h
    rcases hc with rfl | rfl
    · simp only [paginate, hassert, paginateBody, decodedCursorOf, decodeCursor,
        Except.map, applyCursorStep, sortsAppliedOf, hsig, ne_eq, not_true_eq_false,
        if_false, baseApplyCursor] at h
      cases hb : buildCursorPredicateRecursive p.k sorts with
      | error e =>
        rw [hb] at h
        obtain ⟨m, rfl⟩ := build_error_shape _ _ _ hb
        simp [wrapErrors] at h
      | ok pr =>
        rw [hb] at h
        cases db <;> simp [wrapErrors] at h
    · simp only [paginate, hassert, paginateBody, decodedCursorOf, decodeCursor,
        Except.map, applyCursorStep, sortsAppliedOf, hsig, ne_eq, not_true_eq_false,
        if_false, baseApplyCursor] at h
      cases hb : buildCursorPredicateRecursive p.k (invertSorts sorts) with
      | error e =>
        rw [hb] at h
        obtain ⟨m, rfl⟩ := build_error_shape _ _ _ hb
        simp [wrapErrors] at h
      | ok pr =>
        rw [hb] at h
        cases db <;> simp [wrapErrors] at h

set_option maxRecDepth 1000000 in
/-- C7 witness: a stale token (wrong signature) is rejected with
`INVALID_TOKEN`. -/
theorem paginate_signature_check_witness :
    paginate (.ok []) sampleSorts 1 (some { nextPage := some ⟨"deadbeef", []⟩ })
      = .error (.pag ⟨"Page token does not match sort order", some .INVALID_TOKEN, none⟩) :=
  (paginate_signature_check (.ok []) sampleSorts 1 ⟨"deadbeef", []⟩
    { nextPage := some ⟨"deadbeef", []⟩ } (by constructor <;> decide) (by decide)
    (Or.inl rfl)).1 (by decide)

/-! ### C5: backward paging inverts the applied sort set -/

/-- The emitted `startCursor` always anchors the first item with the
supplied sort set. -/
theorem resolvePageTokens_startCursor (rows : List Row) (sorts : List SortItem)
    (cur : Option DecodedCursor) (over : Bool) :
    (resolvePageTokens rows sorts cur over).startCursor
      = (rows.head?).map (fun x => resolveCursor x sorts) := by
  cases rows <;> simp [resolvePageTokens]

/-- The emitted `endCursor` always anchors the last item with the supplied
sort set. -/
theorem resolvePageTokens_endCursor (rows : List Row) (sorts : List SortItem)
    (cur : Option DecodedCursor) (over : Bool) :
    (resolvePageTokens rows sorts cur over).endCursor
      = (rows.getLast?).map (fun x => resolveCursor x sorts) := by
  cases rows <;> simp [resolvePageTokens]

/-- `sortsAppliedOf` on a `Prev` cursor. -/
theorem sortsAppliedOf_prev (sorts : List SortItem) (p : CursorPayload) :
    sortsAppliedOf sorts (some (.prev p)) = invertSorts sorts := rfl

/-- `sortsAppliedOf` on a `Next` cursor. -/
theorem sortsAppliedOf_next (sorts : List SortItem) (p : CursorPayload) :
    sortsAppliedOf sorts (some (.next p)) = sorts := rfl

/-- One-step unfolding of `paginateBody` for a decoded cursor shape dc. -/
theorem paginateBody_eq (db : Except String (List Row)) (sorts : List SortItem)
    (limit : ℚ) (cursor : Option CursorIncoming) (dc : Option DecodedCursor)
    (hdc : decodedCursorOf cursor = .ok dc) :
    paginateBody db sorts limit cursor
      = (match applyCursorStep
            (applyLimit (applySort {} (sortsAppliedOf sorts dc)) (limit + 1)) sorts
            (sortsAppliedOf sorts dc) dc with
        | .error e => .error e
        | .ok q2 =>
          match db with
          | .error e => .error (.ext e)
          | .ok table =>
              .ok (mkPage dc sorts (ratToNat limit) (interpQuery table q2), q2)) := by
  rw [paginateBody, hdc]

/-- One-step unfolding of `paginateBody` with no incoming cursor. -/
theorem paginateBody_none_eq (db : Except String (List Row)) (sorts : List SortItem)
    (limit : ℚ) :
    paginateBody db sorts limit none
      = (match db with
        | .error e => .error (.ext e)
        | .ok table =>
            .ok (mkPage none sorts (ratToNat limit)
                (interpQuery table (applyLimit (applySort {} sorts) (limit + 1))),
              applyLimit (applySort {} sorts) (limit + 1))) := by
  rw [paginateBody_eq db sorts limit none none rfl]
  rfl

/-- One-step unfolding of `paginateBody` with a `nextPage` cursor. -/
theorem paginateBody_next_eq (db : Except String (List Row)) (sorts : List SortItem)
    (limit : ℚ) (p : CursorPayload) :
    paginateBody db sorts limit (some { nextPage := some p })
      = (match applyCursorStep (applyLimit (applySort {} sorts) (limit + 1)) sorts sorts
            (some (.next p)) with
        | .error e => .error e
        | .ok q2 =>
          match db with
          | .error e => .error (.ext e)
          | .ok table =>
              .ok (mkPage (some (.next p)) sorts (ratToNat limit) (interpQuery table q2),
                q2)) := by
  rw [paginateBody_eq db sorts limit (some { nextPage := some p }) (some (.next p)) rfl,
    sortsAppliedOf_next]

/-- One-step unfolding of `paginateBody` with a `prevPage` cursor. -/
theorem paginateBody_prev_eq (db : Except String (List Row)) (sorts : List SortItem)
    (limit : ℚ) (p : CursorPayload) :
    paginateBody db sorts limit (some { prevPage := some p })
      = (match applyCursorStep (applyLimit (applySort {} (invertSorts sorts)) (limit + 1))
            sorts (invertSorts sorts) (some (.prev p)) with
        | .error e => .error e
        | .ok q2 =>
          match db with
          | .error e => .error (.ext e)
          | .ok table =>
              .ok (mkPage (some (.prev p)) sorts (ratToNat limit) (interpQuery table q2),
                q2)) := by
  rw [paginateBody_eq db sorts limit (some { prevPage := some p }) (some (.prev p)) rfl,
    sortsAppliedOf_prev]

/-- The cursor step on a `Prev` cursor. -/
theorem applyCursorStep_prev (q1 : Query) (sorts sortsApplied : List SortItem)
    (p : CursorPayload) :
    applyCursorStep q1 sorts sortsApplied (some (.prev p))
      = if p.sig ≠ sortSignature sorts then
          .error (.pag ⟨"Page token does not match sort order", some .INVALID_TOKEN, none⟩)
        else baseApplyCursor q1 sortsApplied p := rfl

/-- The cursor step on a `Next` cursor. -/
theorem applyCursorStep_next (q1 : Query) (sorts sortsApplied : List SortItem)
    (p : CursorPayload) :
    applyCursorStep q1 sorts sortsApplied (some (.next p))
      = if p.sig ≠ sortSignature sorts then
          .error (.pag ⟨"Page token does not match sort order", some .INVALID_TOKEN, none⟩)
        else baseApplyCursor q1 sortsApplied p := rfl

/-- `baseApplyCursor` when the builder succeeds. -/
theorem baseApplyCursor_ok {q : Query} {sorts : List SortItem} {p : CursorPayload}
    {pr : Pred} (h : buildCursorPredicateRecursive p.k sorts = .ok pr) :
    baseApplyCursor q sorts p = .ok { q with cursorPredApplied := some pr } := by
  rw [baseApplyCursor, h]
  rfl

/-- `baseApplyCursor` when the builder fails. -/
theorem baseApplyCursor_error {q : Query} {sorts : List SortItem} {p : CursorPayload}
    {e : Err} (h : buildCursorPredicateRecursive p.k sorts = .error e) :
    baseApplyCursor q sorts p = .error e := by
  rw [baseApplyCursor, h]
  rfl

/-- C5: on a `Prev` cursor, the payload signature is compared against the
original, un-inverted sort set: a `sig` differing from
`sortSignature sorts` is rejected with `Page token does not match sort
order` / `INVALID_TOKEN` (even when it matches the inverted set), and any
successful call carries `sig = sortSignature sorts`.  On success the query
is built with the inverted sort set (Asc↔Desc swapped, unset directions
counted as Asc, `col` and `output` kept), the returned items are the first
`limit` fetched rows reversed, and the emitted anchors are encoded from
the original, un-inverted sort set. -/
theorem paginate_prev_semantics (db : List Row) (sorts : List SortItem) (limit : ℚ)
    (p : CursorPayload)
    (hl : limit.isInt = true ∧ 0 < limit) (hs : sorts ≠ []) :
    (p.sig ≠ sortSignature sorts →
      paginate (.ok db) sorts limit (some { prevPage := some p })
        = .error (.pag ⟨"Page token does not match sort order", some .INVALID_TOKEN, none⟩))
    ∧ ∀ r q,
      paginate (.ok db) sorts limit (some { prevPage := some p }) = .ok (r, q) →
      p.sig = sortSignature sorts
      ∧ q.sortsApplied = invertSorts sorts
      ∧ q.sortsApplied = sorts.map (fun s =>
          { s with dir := some (if applyDefaultDirection s.dir = .desc then .asc else .desc) })
      ∧ r.items = ((interpQuery db q).take (ratToNat limit)).reverse
      ∧ r.startCursor = (r.items.head?).map (fun x => resolveCursor x sorts)
      ∧ r.endCursor = (r.items.getLast?).map (fun x => resolveCursor x sorts) := by
  have hlen : ¬ (sorts.length < 1) := by
    cases sorts with
    | nil => exact absurd rfl hs
    | cons a l => simp
  have hassert : assertLimitSorts limit sorts = .ok () := by
    simp [assertLimitSorts, hl, hlen]
  constructor
  · intro hsig
    simp [paginate, hassert, paginateBody, decodedCursorOf, decodeCursor,
      applyCursorStep, hsig, wrapErrors, Except.map]
  · intro r q hok
    unfold paginate at hok
    split at hok
    · simp at hok
    · rw [wrapErrors_ok, paginateBody_prev_eq, applyCursorStep_prev] at hok
      by_cases hsig : p.sig ≠ sortSignature sorts
      · rw [if_pos hsig] at hok
        simp at hok
      · rw [if_neg hsig] at hok
        rcases hb : buildCursorPredicateRecursive p.k (invertSorts sorts) with e | pr
        · rw [baseApplyCursor_error hb] at hok
          simp at hok
        · rw [baseApplyCursor_ok hb] at hok
          simp only [Except.ok.injEq, Prod.mk.injEq] at hok
          obtain ⟨hr, hq⟩ := hok
          subst hr
          subst hq
          exact ⟨not_not.mp hsig, rfl, rfl, rfl, resolvePageTokens_startCursor _ _ _ _,
            resolvePageTokens_endCursor _ _ _ _⟩

set_option maxRecDepth 1000000 in
/-- C5 witness: a stale signature on a backward cursor is rejected against
the original sort set, and a concrete backward call succeeds with its
applied sort set inverted. -/
theorem paginate_prev_semantics_witness :
    (paginate (.ok [sampleRow]) sampleSorts 1
        (some { prevPage := some ⟨"deadbeef", []⟩ })
      = .error (.pag ⟨"Page token does not match sort order", some .INVALID_TOKEN, none⟩))
    ∧ ∃ r q, paginate (.ok [sampleRow]) sampleSorts 1
        (some { prevPage := some (resolveCursor sampleRow sampleSorts) }) = .ok (r, q)
      ∧ q.sortsApplied = invertSorts sampleSorts
      ∧ r.items = ((interpQuery [sampleRow] q).take (ratToNat 1)).reverse := by
  constructor
  · exact (paginate_prev_semantics [sampleRow] sampleSorts 1 ⟨"deadbeef", []⟩
      (by constructor <;> decide) (by decide)).1 (by decide)
  · obtain ⟨r, q, hok⟩ :
        ∃ r q, paginate (.ok [sampleRow]) sampleSorts 1
          (some { prevPage := some (resolveCursor sampleRow sampleSorts) }) = .ok (r, q) :=
      ⟨_, _, rfl⟩
    have h := (paginate_prev_semantics [sampleRow] sampleSorts 1
      (resolveCursor sampleRow sampleSorts) (by constructor <;> decide) (by decide)).2
      r q hok
    exact ⟨r, q, hok, h.2.1, h.2.2.2.1⟩

/-! ### C9: error propagation and wrapping -/

/-- C9: once the preconditions pass, an error from the body is surfaced
as-is when it is a `PaginationError`, and wrapped into
`Failed to paginate` / `UNEXPECTED_ERROR` with the original error as cause
otherwise; the caller never receives a partial result. -/
theorem paginate_error_wrapping (db : Except String (List Row)) (sorts : List SortItem)
    (limit : ℚ) (cursor : Option CursorIncoming) (e : PagError) (s : String)
    (hv : assertLimitSorts limit sorts = .ok ()) :
    (paginateBody db sorts limit cursor = .error (.pag e) →
      paginate db sorts limit cursor = .error (.pag e))
    ∧ (paginateBody db sorts limit cursor = .error (.ext s) →
      paginate db sorts limit cursor
        = .error (.pag ⟨"Failed to paginate", some .UNEXPECTED_ERROR, some s⟩)) := by
  constructor <;> intro h <;>
    simp [paginate, Bind.bind, Except.bind, hv, h, wrapErrors]

/-- C9 witness: a database driver throw surfaces as the wrapped
`UNEXPECTED_ERROR` with the original error as cause. -/
theorem paginate_error_wrapping_witness :
    paginate (.error "connection reset") [⟨"id", none, none⟩] 1 none
      = .error (.pag ⟨"Failed to paginate", some .UNEXPECTED_ERROR, some "connection reset"⟩) :=
  (paginate_error_wrapping (.error "connection reset") [⟨"id", none, none⟩] 1 none
    ⟨"", none, none⟩ "connection reset" rfl).2 rfl

/-! ### C1: completeness of page iteration

The remaining development proves that iterating `paginate` forward over a
table whose final sort column is non-null and unique visits exactly the
sorted table.  It proceeds in layers: properties of the row comparator,
sortedness of the model ORDER BY, the semantics of the generated keyset
predicate, and the iteration itself. -/

/-- `icmp` is reflexive. -/
theorem icmp_self (x : Int) : icmp x x = .eq := by
  simp [icmp]

/-- `icmp` detects equality. -/
theorem icmp_eq_iff {x y : Int} : icmp x y = .eq ↔ x = y := by
  unfold icmp
  split_ifs with h1 h2 <;> simp <;> omega

/-- `icmp` detects strict order. -/
theorem icmp_lt_iff {x y : Int} : icmp x y = .lt ↔ x < y := by
  unfold icmp
  split_ifs with h1 h2 <;> simp <;> omega

/-- Swapping the arguments of `icmp` swaps the ordering. -/
theorem icmp_swap (x y : Int) : icmp y x = (icmp x y).swap := by
  unfold icmp
  split_ifs <;> first | rfl | omega

/-- `valCmp` is reflexive. -/
theorem valCmp_self (d : Dir) (x : Val) : valCmp d x x = .eq := by
  cases d <;> cases x <;> simp [valCmp, icmp_self]

/-- `valCmp` detects equality. -/
theorem valCmp_eq_iff {d : Dir} {x y : Val} : valCmp d x y = .eq ↔ x = y := by
  cases d <;> cases x <;> cases y <;>
    simp only [valCmp, icmp_eq_iff] <;> simp [eq_comm]

/-- Swapping the arguments of `valCmp` swaps the ordering. -/
theorem valCmp_swap (d : Dir) (x y : Val) : valCmp d y x = (valCmp d x y).swap := by
  cases d <;> cases x <;> cases y <;> first | rfl | exact icmp_swap _ _

/-- `valCmp` strict order is transitive. -/
theorem valCmp_lt_trans {d : Dir} {x y z : Val} (h1 : valCmp d x y = .lt)
    (h2 : valCmp d y z = .lt) : valCmp d x z = .lt := by
  cases d <;> cases x <;> cases y <;> cases z <;>
    simp only [valCmp, icmp_lt_iff] at h1 h2 ⊢ <;>
    first
      | rfl
      | omega
      | simp_all

/-- `lexCmp` is reflexive. -/
theorem lexCmp_self (sorts : List SortItem) (a : Row) : lexCmp sorts a a = .eq := by
  induction sorts with
  | nil => rfl
  | cons s rest ih => simp [lexCmp, valCmp_self, ih]

/-- Swapping the arguments of `lexCmp` swaps the ordering. -/
theorem lexCmp_swap (sorts : List SortItem) (a b : Row) :
    lexCmp sorts b a = (lexCmp sorts a b).swap := by
  induction sorts with
  | nil => rfl
  | cons s rest ih =>
    simp only [lexCmp]
    rw [valCmp_swap _ (getV a s.col) (getV b s.col)]
    cases valCmp (applyDefaultDirection s.dir) (getV a s.col) (getV b s.col) <;>
      simp [Ordering.swap, ih]

/-- Rows comparing equal agree on every sort column. -/
theorem lexCmp_eq_cols {sorts : List SortItem} {a b : Row}
    (h : lexCmp sorts a b = .eq) : ∀ s ∈ sorts, getV a s.col = getV b s.col := by
  induction sorts with
  | nil => simp
  | cons s rest ih =>
    intro t ht
    rw [lexCmp] at h
    rcases hv : valCmp (applyDefaultDirection s.dir) (getV a s.col) (getV b s.col) with
      hlt | heq | hgt <;> rw [hv] at h
    · simp at h
    · rcases List.mem_cons.mp ht with rfl | ht2
      · exact valCmp_eq_iff.mp hv
      · exact ih h t ht2
    · simp at h

/-- Rows agreeing on every sort column compare identically against any
third row. -/
theorem lexCmp_congr_left {sorts : List SortItem} {a b : Row}
    (h : ∀ s ∈ sorts, getV a s.col = getV b s.col) (c : Row) :
    lexCmp sorts a c = lexCmp sorts b c := by
  induction sorts with
  | nil => rfl
  | cons s rest ih =>
    simp only [lexCmp, h s (by simp)]
    cases valCmp (applyDefaultDirection s.dir) (getV b s.col) (getV c s.col) <;>
      simp [ih (fun t ht => h t (by simp [ht]))]

/-- `lexCmp` strict order is transitive. -/
theorem lexCmp_lt_trans {sorts : List SortItem} : ∀ {a b c : Row},
    lexCmp sorts a b = .lt → lexCmp sorts b c = .lt → lexCmp sorts a c = .lt := by
  induction sorts with
  | nil =>
    intro a b c h1 h2
    simp [lexCmp] at h1
  | cons s rest ih =>
    intro a b c h1 h2
    rw [lexCmp] at h1 h2 ⊢
    rcases hab : valCmp (applyDefaultDirection s.dir) (getV a s.col) (getV b s.col) with
      _ | _ | _ <;> rw [hab] at h1 <;>
      rcases hbc : valCmp (applyDefaultDirection s.dir) (getV b s.col) (getV c s.col) with
        _ | _ | _ <;> rw [hbc] at h2 <;> try simp_all
    · rw [valCmp_lt_trans hab hbc]
    · rw [← valCmp_eq_iff.mp hbc, hab]
    · rw [valCmp_eq_iff.mp hab, hbc]
    · rw [valCmp_eq_iff.mpr ((valCmp_eq_iff.mp hab).trans (valCmp_eq_iff.mp hbc))]
      exact ih h1 h2

/-- Rows agreeing on every sort column compare identically from the left as
well. -/
theorem lexCmp_congr_right {sorts : List SortItem} {b c : Row}
    (h : ∀ s ∈ sorts, getV b s.col = getV c s.col) (a : Row) :
    lexCmp sorts a b = lexCmp sorts a c := by
  induction sorts with
  | nil => rfl
  | cons s rest ih =>
    simp only [lexCmp, h s (by simp)]
    cases valCmp (applyDefaultDirection s.dir) (getV a s.col) (getV c s.col) <;>
      simp [ih (fun t ht => h t (by simp [ht]))]

/-- The non-strict comparison used for the model ORDER BY. -/
def lexLe (sorts : List SortItem) (a b : Row) : Prop := lexCmp sorts a b ≠ .gt

/-- `lexLe` is total. -/
theorem lexLe_total (sorts : List SortItem) (a b : Row) :
    lexLe sorts a b ∨ lexLe sorts b a := by
  unfold lexLe
  rw [lexCmp_swap sorts a b]
  cases lexCmp sorts a b <;> simp [Ordering.swap]

/-- `lexLe` is transitive. -/
theorem lexLe_trans {sorts : List SortItem} {a b c : Row}
    (h1 : lexLe sorts a b) (h2 : lexLe sorts b c) : lexLe sorts a c := by
  unfold lexLe at *
  rcases hab : lexCmp sorts a b with _ | _ | _ <;> rw [hab] at h1 <;>
    rcases hbc : lexCmp sorts b c with _ | _ | _ <;> rw [hbc] at h2 <;> try simp_all
  · rw [lexCmp_lt_trans hab hbc]
    simp
  · rw [← lexCmp_congr_right (lexCmp_eq_cols hbc) a, hab]
    simp
  · rw [lexCmp_congr_left (lexCmp_eq_cols hab) c, hbc]
    simp
  · rw [lexCmp_congr_left (lexCmp_eq_cols hab) c, hbc]
    simp

/-- One-step unfolding of `lexCmp`. -/
theorem lexCmp_cons (s : SortItem) (rest : List SortItem) (a b : Row) :
    lexCmp (s :: rest) a b
      = (match valCmp (applyDefaultDirection s.dir) (getV a s.col) (getV b s.col) with
        | .eq => lexCmp rest a b
        | o => o) := rfl

/-- On a single sort item, `lexCmp` is the column comparison. -/
theorem lexCmp_singleton (s : SortItem) (a b : Row) :
    lexCmp [s] a b
      = valCmp (applyDefaultDirection s.dir) (getV a s.col) (getV b s.col) := by
  rw [lexCmp_cons]
  cases valCmp (applyDefaultDirection s.dir) (getV a s.col) (getV b s.col) <;> rfl

/-- The model ORDER BY permutes the table. -/
theorem sortRows_perm (sorts : List SortItem) (rows : List Row) :
    (sortRows sorts rows).Perm rows :=
  List.perm_insertionSort _ rows

/-- The model ORDER BY sorts by `lexLe`. -/
theorem sortRows_sorted (sorts : List SortItem) (rows : List Row) :
    (sortRows sorts rows).Sorted (fun a b => lexCmp sorts a b ≠ .gt) := by
  haveI : IsTotal Row (fun a b => lexCmp sorts a b ≠ .gt) := ⟨lexLe_total sorts⟩
  haveI : IsTrans Row (fun a b => lexCmp sorts a b ≠ .gt) :=
    ⟨fun a b c h1 h2 => lexLe_trans h1 h2⟩
  exact List.sorted_insertionSort _ rows

/-- With pairwise distinct values of the final sort column, the sorted table
is strictly increasing in the row order. -/
theorem sortRows_pairwise_lt (sorts : List SortItem) (hne : sorts ≠ []) (rows : List Row)
    (huniq : (rows.map (fun r => getV r (sorts.getLast hne).col)).Nodup) :
    (sortRows sorts rows).Pairwise (fun a b => lexCmp sorts a b = .lt) := by
  have hnd : ((sortRows sorts rows).map
      (fun r => getV r (sorts.getLast hne).col)).Nodup :=
    (((sortRows_perm sorts rows).map _).nodup_iff).mpr huniq
  have hpne := List.pairwise_map.mp hnd
  refine ((sortRows_sorted sorts rows).and hpne).imp ?_
  intro a b h
  rcases hab : lexCmp sorts a b with _ | _ | _
  · rfl
  · exact absurd (lexCmp_eq_cols hab _ (List.getLast_mem hne)) h.2
  · exact absurd hab h.1

/-- The payload built by `resolveCursor` answers every key of the sort set
with the boundary row's value. -/
theorem resolveCursor_lookup (b : Row) (sorts : List SortItem) (key : String)
    (h : key ∈ sorts.map getSortOutput) :
    List.lookup key (resolveCursor b sorts).k = some (getV b key) := by
  induction sorts with
  | nil => simp at h
  | cons s rest ih =>
    by_cases hk : key = getSortOutput s
    · subst hk
      simp [resolveCursor, List.lookup]
    · have h2 : key ∈ rest.map getSortOutput := by
        rcases List.mem_map.mp h with ⟨t, ht, hkey⟩
        rcases List.mem_cons.mp ht with rfl | ht2
        · exact absurd hkey.symm hk
        · exact List.mem_map.mpr ⟨t, ht2, hkey⟩
      have h3 := ih h2
      have hbeq : (key == getSortOutput s) = false := beq_eq_false_iff_ne.mpr hk
      simp only [resolveCursor] at h3 ⊢
      simpa [List.lookup, hbeq] using h3

/-- Correctness of the per-column comparison emitted for a forward cursor:
`c cmp v` with `cmp = (d == Desc ? "<" : ">")` selects exactly the rows
strictly beyond the boundary value in the `d`-order. -/
theorem forward_cmp_correct (d : Dir) (xb xr : Int) :
    evalCmp (if d = .desc then .lt else .gt) (some xr) (some xb)
      = (valCmp d (some xb) (some xr) == .lt) := by
  cases d
  · rw [if_neg (by decide)]
    simp only [evalCmp, valCmp, icmp]
    split_ifs with h1 h2
    · simp [h1]
      rfl
    · simp [h1, h2]
      rfl
    · have h3 : xr < xb := by omega
      simp [h1, h2, h3]
      rfl
  · rw [if_pos rfl]
    simp only [evalCmp, valCmp, icmp]
    split_ifs with h1 h2
    · simp [h1]
      rfl
    · simp [h1, h2]
      rfl
    · have h3 : xb < xr := by omega
      simp [h1, h2, h3]
      rfl

/-- Semantics of the generated keyset predicate for forward paging: against
any row whose final sort column is non-null (like the boundary row's), the
predicate built from the boundary payload holds exactly when the row lies
strictly after the boundary in the lexicographic sort order. -/
theorem evalPred_build (b : Row) (kb : List (String × Val)) :
    ∀ (sl : List SortItem) (hne : sl ≠ [])
      (hk : ∀ s ∈ sl, List.lookup (getSortOutput s) kb = some (getV b s.col))
      (row : Row),
      (getV b (sl.getLast hne).col).isSome = true →
      (getV row (sl.getLast hne).col).isSome = true →
      ∃ pr, buildCursorPredicateRecursive kb sl = .ok pr
        ∧ evalPred row pr = (lexCmp sl b row == .lt) := by
  intro sl
  induction sl with
  | nil => intro hne; exact absurd rfl hne
  | cons s rest ih =>
    intro hne hk row hbl hrl
    cases rest with
    | nil =>
      obtain ⟨xb, hxb⟩ := Option.isSome_iff_exists.mp hbl
      obtain ⟨xr, hxr⟩ := Option.isSome_iff_exists.mp hrl
      have hxb' : getV b s.col = some xb := hxb
      have hxr' : getV row s.col = some xr := hxr
      refine ⟨.cmp s.col (if applyDefaultDirection s.dir = .desc then .lt else .gt)
        (getV b s.col), ?_, ?_⟩
      · rw [build_cons, hk s (by simp)]
        rfl
      · rw [lexCmp_singleton]
        simp only [evalPred]
        rw [hxb', hxr']
        exact forward_cmp_correct _ _ _
    | cons s2 rest2 =>
      have hne2 : s2 :: rest2 ≠ [] := by simp
      obtain ⟨npr, hnpr, hevaln⟩ :=
        ih hne2 (fun t ht => hk t (by simp [ht])) row hbl hrl
      rcases hbv : getV b s.col with _ | xb <;>
        rcases hdir : applyDefaultDirection s.dir with _ | _
      · -- null boundary, ascending
        refine ⟨.orP (.andP (.isNull s.col) npr) (.isNotNull s.col), ?_, ?_⟩
        · rw [build_cons, hk s (by simp)]
          simp only [hbv, hdir, hnpr, Bind.bind, Except.bind, pure, Except.pure]
          simp
        · rw [lexCmp_cons, hbv, hdir]
          rcases hrv : getV row s.col with _ | xr <;>
            simp [evalPred, hrv, hevaln, valCmp] <;> rfl
      · -- null boundary, descending
        refine ⟨.andP (.isNull s.col) npr, ?_, ?_⟩
        · rw [build_cons, hk s (by simp)]
          simp only [hbv, hdir, hnpr, Bind.bind, Except.bind, pure, Except.pure]
          simp
        · rw [lexCmp_cons, hbv, hdir]
          rcases hrv : getV row s.col with _ | xr <;>
            simp [evalPred, hrv, hevaln, valCmp] <;> rfl
      · -- non-null boundary, ascending
        refine ⟨.orP (.cmp s.col .gt (some xb)) (.andP (.cmp s.col .eq (some xb)) npr),
          ?_, ?_⟩
        · rw [build_cons, hk s (by simp)]
          simp only [hbv, hdir, hnpr, Bind.bind, Except.bind, pure, Except.pure]
          simp
        · rw [lexCmp_cons, hbv, hdir]
          rcases hrv : getV row s.col with _ | xr
          · simp [evalPred, evalCmp, hrv, valCmp]
            rfl
          · simp only [evalPred, evalCmp, hrv, valCmp]
            rcases lt_trichotomy xb xr with h | h | h
            · simp [icmp, h]
              rfl
            · subst h
              simp [icmp, hevaln]
              try rfl
            · have h2 : ¬ (xb < xr) := by omega
              have h3 : ¬ (xb = xr) := by omega
              have h4 : ¬ (xr = xb) := by omega
              simp [icmp, h2, h3, h4]
              try rfl
      · -- non-null boundary, descending
        refine ⟨.orP (.cmp s.col .lt (some xb))
          (.orP (.andP (.cmp s.col .eq (some xb)) npr) (.isNull s.col)), ?_, ?_⟩
        · rw [build_cons, hk s (by simp)]
          simp only [hbv, hdir, hnpr, Bind.bind, Except.bind, pure, Except.pure]
          simp
        · rw [lexCmp_cons, hbv, hdir]
          rcases hrv : getV row s.col with _ | xr
          · simp [evalPred, evalCmp, hrv, valCmp]
            rfl
          · simp only [evalPred, evalCmp, hrv, valCmp]
            rcases lt_trichotomy xr xb with h | h | h
            · simp [icmp, h]
              rfl
            · subst h
              simp [icmp, hevaln]
              try rfl
            · have h2 : ¬ (xr < xb) := by omega
              have h3 : ¬ (xb = xr) := by omega
              have h4 : ¬ (xr = xb) := by omega
              simp [icmp, h2, h3, h4]
              try rfl

/-- Filtering a strictly increasing list by "strictly after `b`" keeps
exactly the part after `b`. -/
theorem filter_pairwise_after (sorts : List SortItem) (f : Row → Bool) :
    ∀ (l1 : List Row) (b : Row) (l2 : List Row),
      (l1 ++ b :: l2).Pairwise (fun a c => lexCmp sorts a c = .lt) →
      (∀ x ∈ l1 ++ b :: l2, f x = (lexCmp sorts b x == .lt)) →
      (l1 ++ b :: l2).filter f = l2 := by
  intro l1
  induction l1 with
  | nil =>
    intro b l2 hpw hf
    simp only [List.nil_append] at *
    rw [List.filter_cons]
    have hfb : f b = false := by
      rw [hf b (by simp), lexCmp_self]
      rfl
    have hall : ∀ x ∈ l2, f x = true := by
      intro x hx
      rw [hf x (by simp [hx]), (List.pairwise_cons.mp hpw).1 x hx]
      rfl
    simp [hfb]
    exact hall
  | cons a l1' ih =>
    intro b l2 hpw hf
    rw [List.cons_append, List.filter_cons]
    have hab : lexCmp sorts a b = .lt :=
      (List.pairwise_cons.mp hpw).1 b (by simp)
    have hba : lexCmp sorts b a = .gt := by
      rw [lexCmp_swap, hab]
      rfl
    have hfa : f a = false := by
      rw [hf a (by simp), hba]
      rfl
    simp only [hfa, Bool.false_eq_true, if_false]
    exact ih b l2 (List.pairwise_cons.mp hpw).2 (fun x hx => hf x (by simp [hx]))

/-- A valid limit is a positive row count. -/
theorem ratToNat_pos {limit : ℚ} (hl : limit.isInt = true ∧ 0 < limit) :
    0 < ratToNat limit := by
  have hnum : 0 < limit.num := Rat.num_pos.mpr hl.2
  unfold ratToNat
  omega

/-- The over-fetch limit is one more row. -/
theorem ratToNat_add_one {limit : ℚ} (hl : limit.isInt = true ∧ 0 < limit) :
    ratToNat (limit + 1) = ratToNat limit + 1 := by
  have hden : limit.den = 1 := by simpa [Rat.isInt] using hl.1
  have hn : limit = (limit.num : ℚ) := ((Rat.den_eq_one_iff limit).mp hden).symm
  have hpos : 0 < limit.num := Rat.num_pos.mpr hl.2
  rw [ratToNat, ratToNat, hn]
  rw [show ((limit.num : ℚ) + 1) = ((limit.num + 1 : ℤ) : ℚ) by push_cast; ring]
  rw [Rat.num_intCast, Rat.num_intCast]
  omega

/-- Validation passes for a valid limit and non-empty sort set. -/
theorem assertLimitSorts_ok {limit : ℚ} {sorts : List SortItem}
    (hl : limit.isInt = true ∧ 0 < limit) (hs : sorts ≠ []) :
    assertLimitSorts limit sorts = .ok () := by
  have hlen : ¬ (sorts.length < 1) := by
    cases sorts with
    | nil => exact absurd rfl hs
    | cons a l => simp
  simp [assertLimitSorts, hl, hlen]

/-- `nextPage` emission for a forward (non-inverted) call. -/
theorem resolvePageTokens_nextPage_forward (rows : List Row) (sorts : List SortItem)
    (dc : Option DecodedCursor) (over : Bool) (hdc : cursorInverted dc = false) :
    (resolvePageTokens rows sorts dc over).nextPage
      = (if over = true
         then (rows.getLast?).map (fun x => resolveCursor x sorts)
         else none) := by
  cases rows with
  | nil => cases over <;> simp [resolvePageTokens]
  | cons a l => simp [resolvePageTokens, hdc]

/-- The slice and `nextPage` of a forward page. -/
theorem mkPage_forward (sorts : List SortItem) (lim : Nat) (rows : List Row)
    (dc : Option DecodedCursor) (hdc : cursorInverted dc = false) :
    (mkPage dc sorts lim rows).items = rows.take lim
    ∧ (mkPage dc sorts lim rows).nextPage
        = (if lim < rows.length
           then ((rows.take lim).getLast?).map (fun x => resolveCursor x sorts)
           else none) := by
  have hitems : (mkPage dc sorts lim rows).items = rows.take lim := by
    rcases dc with _ | pp
    · rfl
    · rcases pp with p | p | n
      · rfl
      · simp [cursorInverted] at hdc
      · rfl
  refine ⟨hitems, ?_⟩
  have hnp : (mkPage dc sorts lim rows).nextPage
      = (resolvePageTokens ((mkPage dc sorts lim rows).items) sorts dc
          (decide (lim < rows.length))).nextPage := by
    rcases dc with _ | pp
    · rfl
    · rcases pp with p | p | n
      · rfl
      · simp [cursorInverted] at hdc
      · rfl
  rw [hnp, resolvePageTokens_nextPage_forward _ _ _ _ hdc, hitems]
  by_cases hover : lim < rows.length
  · simp [hover]
  · simp [hover]

/-- Meaning of the forward query with a keyset predicate applied. -/
theorem interpQuery_pred (db : List Row) (sorts : List SortItem) (l : ℚ) (pr : Pred) :
    interpQuery db ⟨sorts, some l, none, some pr⟩
      = ((sortRows sorts db).filter (fun r => evalPred r pr)).take (ratToNat l) := rfl

/-- Meaning of the forward query without a cursor. -/
theorem interpQuery_nopred (db : List Row) (sorts : List SortItem) (l : ℚ) :
    interpQuery db ⟨sorts, some l, none, none⟩
      = (sortRows sorts db).take (ratToNat l) := rfl

/-- The first forward call: `paginate` without a cursor over-fetches one row
past the limit from the sorted table. -/
theorem paginate_none_result (db : List Row) (sorts : List SortItem) (limit : ℚ)
    (hl : limit.isInt = true ∧ 0 < limit) (hs : sorts ≠ []) :
    paginate (.ok db) sorts limit none
      = .ok (mkPage none sorts (ratToNat limit)
          ((sortRows sorts db).take (ratToNat limit + 1)),
        ⟨sorts, some (limit + 1), none, none⟩) := by
  have hq : applyLimit (applySort {} sorts) (limit + 1)
      = (⟨sorts, some (limit + 1), none, none⟩ : Query) := rfl
  simp only [paginate, assertLimitSorts_ok hl hs, paginateBody_none_eq, hq,
    interpQuery_nopred, ratToNat_add_one hl, wrapErrors]

/-- A forward call with the token of a boundary row `bb` of the sorted
table: the keyset predicate leaves exactly the rows after `bb`, and one row
past the limit of them is fetched. -/
theorem paginate_next_result (db : List Row) (sorts : List SortItem) (limit : ℚ)
    (hl : limit.isInt = true ∧ 0 < limit) (hs : sorts ≠ [])
    (hproj : ∀ r ∈ db, ∀ s ∈ sorts, getV r (getSortOutput s) = getV r s.col)
    (hnn : ∀ r ∈ db, (getV r (sorts.getLast hs).col).isSome = true)
    (huniq : (db.map (fun r => getV r (sorts.getLast hs).col)).Nodup)
    (bb : Row) (hbb : bb ∈ db) (l1 l2 : List Row)
    (hdec : sortRows sorts db = l1 ++ bb :: l2) :
    ∃ q2, paginate (.ok db) sorts limit
        (some { nextPage := some (resolveCursor bb sorts) })
      = .ok (mkPage (some (.next (resolveCursor bb sorts))) sorts (ratToNat limit)
          (l2.take (ratToNat limit + 1)), q2) := by
  have hk : ∀ s ∈ sorts, List.lookup (getSortOutput s) (resolveCursor bb sorts).k
      = some (getV bb s.col) := by
    intro s hsm
    rw [resolveCursor_lookup bb sorts _ (List.mem_map_of_mem _ hsm), hproj bb hbb s hsm]
  have hbl := hnn bb hbb
  obtain ⟨pr, hbpr, -⟩ :=
    evalPred_build bb (resolveCursor bb sorts).k sorts hs hk bb hbl hbl
  have hperm := sortRows_perm sorts db
  have hpoint : ∀ x ∈ sortRows sorts db,
      (fun r => evalPred r pr) x = (lexCmp sorts bb x == .lt) := by
    intro x hx
    obtain ⟨pr2, hbpr2, heval2⟩ :=
      evalPred_build bb (resolveCursor bb sorts).k sorts hs hk x hbl
        (hnn x (hperm.mem_iff.mp hx))
    rw [hbpr] at hbpr2
    cases hbpr2
    exact heval2
  have hpw := sortRows_pairwise_lt sorts hs db huniq
  rw [hdec] at hpw hpoint
  have hfilter : (sortRows sorts db).filter (fun r => evalPred r pr) = l2 := by
    rw [hdec]
    exact filter_pairwise_after sorts _ l1 bb l2 hpw hpoint
  have hq2 : ({ applyLimit (applySort {} sorts) (limit + 1) with
      cursorPredApplied := some pr } : Query)
      = (⟨sorts, some (limit + 1), none, some pr⟩ : Query) := rfl
  refine ⟨⟨sorts, some (limit + 1), none, some pr⟩, ?_⟩
  have hsigeq : (resolveCursor bb sorts).sig = sortSignature sorts := by
    rw [resolveCursor]
  have hsig : ¬ ((resolveCursor bb sorts).sig ≠ sortSignature sorts) :=
    not_not_intro hsigeq
  simp only [paginate, assertLimitSorts_ok hl hs]
  rw [paginateBody_next_eq, applyCursorStep_next, if_neg hsig,
    baseApplyCursor_ok hbpr]
  simp only [hq2, interpQuery_pred, hfilter, ratToNat_add_one hl, wrapErrors]

/-- C1: completeness of forward iteration.  For a non-empty sort set whose
final column is non-null and unique across the table (and whose selected
rows expose each sort column under its output key), starting with no cursor
and following every emitted `nextPage` token concatenates, over all pages,
exactly the rows of the sorted query, in order, with no duplicate and no
missing row. -/
theorem paginate_completeness (db : List Row) (sorts : List SortItem) (limit : ℚ)
    (hs : sorts ≠ [])
    (hl : limit.isInt = true ∧ 0 < limit)
    (hproj : ∀ r ∈ db, ∀ s ∈ sorts, getV r (getSortOutput s) = getV r s.col)
    (hnn : ∀ r ∈ db, (getV r (sorts.getLast hs).col).isSome = true)
    (huniq : (db.map (fun r => getV r (sorts.getLast hs).col)).Nodup) :
    pageThrough db sorts limit (db.length + 1) none = .ok (sortRows sorts db) := by
  have hperm := sortRows_perm sorts db
  have hlen : (sortRows sorts db).length = db.length := hperm.length_eq
  have hlim : 0 < ratToNat limit := ratToNat_pos hl
  have loop : ∀ fuel (cura : Option CursorPayload) (rem : List Row),
      (match cura with
        | none => rem = sortRows sorts db
        | some p => ∃ l1 bb, bb ∈ db ∧ p = resolveCursor bb sorts
            ∧ sortRows sorts db = l1 ++ bb :: rem) →
      rem.length < fuel →
      pageThrough db sorts limit fuel cura = .ok rem := by
    intro fuel
    induction fuel with
    | zero =>
      intro cura rem _ hf
      exact absurd hf (Nat.not_lt_zero _)
    | succ fuel ih =>
      intro cura rem hrel hf
      have hfacts :
          (∃ dc q2, cursorInverted dc = false ∧
            paginate (.ok db) sorts limit (cura.map fun p => { nextPage := some p })
              = .ok (mkPage dc sorts (ratToNat limit) (rem.take (ratToNat limit + 1)),
                  q2))
          ∧ (∀ x ∈ rem, x ∈ db)
          ∧ (∀ (z : Row) (l1z l2z : List Row), rem = l1z ++ z :: l2z →
              ∃ w, sortRows sorts db = w ++ z :: l2z) := by
        rcases cura with _ | p
        · replace hrel : rem = sortRows sorts db := hrel
          subst hrel
          refine ⟨⟨none, ⟨sorts, some (limit + 1), none, none⟩, rfl,
            paginate_none_result db sorts limit hl hs⟩, ?_, ?_⟩
          · intro x hx
            exact hperm.mem_iff.mp hx
          · intro z l1z l2z hz
            exact ⟨l1z, hz⟩
        · replace hrel : ∃ l1 bb, bb ∈ db ∧ p = resolveCursor bb sorts
              ∧ sortRows sorts db = l1 ++ bb :: rem := hrel
          obtain ⟨l1, bb, hbb, rfl, hdec⟩ := hrel
          obtain ⟨q2, hq⟩ := paginate_next_result db sorts limit hl hs hproj hnn huniq
            bb hbb l1 rem hdec
          refine ⟨⟨some (.next (resolveCursor bb sorts)), q2, rfl, hq⟩, ?_, ?_⟩
          · intro x hx
            apply hperm.mem_iff.mp
            rw [hdec]
            simp [hx]
          · intro z l1z l2z hz
            refine ⟨l1 ++ bb :: l1z, ?_⟩
            rw [hdec, hz]
            simp
      obtain ⟨⟨dc, q2, hdcf, hpag⟩, hsub, hdecomp⟩ := hfacts
      obtain ⟨hitems, hnext⟩ := mkPage_forward sorts (ratToNat limit)
        (rem.take (ratToNat limit + 1)) dc hdcf
      rw [pageThrough, hpag]
      dsimp only
      by_cases hov : ratToNat limit < rem.length
      · have hlt : ratToNat limit < (rem.take (ratToNat limit + 1)).length := by
          simp only [List.length_take]
          omega
        have htt : (rem.take (ratToNat limit + 1)).take (ratToNat limit)
            = rem.take (ratToNat limit) := by
          rw [List.take_take]
          congr 1
          omega
        have htne : rem.take (ratToNat limit) ≠ [] := by
          apply List.length_pos.mp
          simp only [List.length_take]
          omega
        have hglast := List.getLast?_eq_getLast _ htne
        have hb2rem : (rem.take (ratToNat limit)).getLast htne ∈ rem :=
          List.mem_of_mem_take (List.getLast_mem htne)
        have hremdec : rem
            = (rem.take (ratToNat limit)).dropLast
              ++ (rem.take (ratToNat limit)).getLast htne :: rem.drop (ratToNat limit) := by
          conv_lhs => rw [← List.take_append_drop (ratToNat limit) rem]
          rw [show (rem.take (ratToNat limit)).getLast htne :: rem.drop (ratToNat limit)
              = [(rem.take (ratToNat limit)).getLast htne] ++ rem.drop (ratToNat limit)
            from rfl]
          rw [← List.append_assoc, List.dropLast_append_getLast htne]
        obtain ⟨w, hw⟩ := hdecomp _ _ _ hremdec
        have hrec := ih (some (resolveCursor ((rem.take (ratToNat limit)).getLast htne)
            sorts)) (rem.drop (ratToNat limit))
          ⟨w, _, hsub _ hb2rem, rfl, hw⟩
          (by simp only [List.length_drop]; omega)
        rw [hnext, if_pos hlt, htt, hglast]
        simp only [Option.map]
        rw [hrec, hitems, htt]
        dsimp only
        rw [List.take_append_drop]
      · have hle : ¬ (ratToNat limit < (rem.take (ratToNat limit + 1)).length) := by
          simp only [List.length_take]
          omega
        rw [hnext, if_neg hle]
        simp only
        rw [hitems, List.take_take]
        have : ratToNat limit ⊓ (ratToNat limit + 1) = ratToNat limit := by omega
        rw [this, List.take_of_length_le (by omega)]
  exact loop (db.length + 1) none (sortRows sorts db) rfl
    (by rw [hlen]; exact Nat.lt_succ_self _)

/-- C1 witness: a three-row table sorted by a single non-null unique column,
paged through with limit 2, yields exactly the sorted table. -/
theorem paginate_completeness_witness :
    pageThrough
      [[("id", some (2 : Int))], [("id", some (1 : Int))], [("id", some (3 : Int))]]
      [⟨"id", none, none⟩] 2
      ([[("id", some (2 : Int))], [("id", some (1 : Int))],
        [("id", some (3 : Int))]].length + 1) none
    = .ok (sortRows [⟨"id", none, none⟩]
        [[("id", some (2 : Int))], [("id", some (1 : Int))], [("id", some (3 : Int))]]) :=
  paginate_completeness
    [[("id", some (2 : Int))], [("id", some (1 : Int))], [("id", some (3 : Int))]]
    [⟨"id", none, none⟩] 2 (by decide) ⟨by decide, by decide⟩
    (by decide) (by decide) (by decide)

end KyselyCursor